import Mathlib

/-!
Verification development for the tiling-and-result-aggregation subsystem of
the `peruse` screenshot-monitoring repository (`src/image_tiling.py`).

The Python code passes analysis results around as dicts with optional keys,
read back with `dict.get` and a default.  We embed such a dict as a structure
of `Option`-typed fields: `none` models an absent key, `some v` a present one,
and every `result.get(key, default)` in the source becomes `(field).getD default`.
Machine integers in this code are Python ints (unbounded), so `Nat` is exact.
-/

/-- One detected difference inside a tile (a `changes_detected` entry).
The aggregator reads only `location` (with default `""`), copies the dict and
rewrites `location`; the other keys ride along unchanged. -/
structure Change where
  ctype : Option String := none
  description : Option String := none
  location : Option String := none
  impact : Option String := none
deriving Repr, DecidableEq

/-- The `tile_info` dict attached to each per-tile result by
`analyze_tiled_image`.  The aggregator reads `tile_info.get("tile_index", i)`. -/
structure TileInfo where
  tile_index : Option Nat := none
  baseline_path : Option String := none
  current_path : Option String := none
deriving Repr, DecidableEq

/-- A per-tile analysis result dict, as consumed by `combine_tile_results`:
each field models the presence/absence of the like-named key. -/
structure TileResult where
  error : Option String := none
  has_changes : Option Bool := none
  severity : Option String := none
  summary : Option String := none
  changes_detected : Option (List Change) := none
  availability_status : Option String := none
  recommendations : Option (List String) := none
  tile_info : Option TileInfo := none
deriving Repr, DecidableEq

/-- The combined result dict built by `combine_tile_results`.
`tiles_with_errors` is `Option Nat` because the empty-input sentinel dict has
no `tiles_with_errors` key while the non-empty path always sets it. -/
structure CombinedResult where
  has_changes : Bool
  severity : String
  summary : String
  changes_detected : List Change
  availability_status : String
  recommendations : List String
  tile_count : Nat
  tiles_with_errors : Option Nat := none
deriving Repr, DecidableEq

/-- `severity_levels.get(s, 0)`: the rank of a severity string under the dict
`none 0, minor 1, moderate 2, major 3, critical 4, unknown 5`, any other
string defaulting to 0. -/
def severityLevel (s : String) : Nat :=
  if s = "none" then 0
  else if s = "minor" then 1
  else if s = "moderate" then 2
  else if s = "major" then 3
  else if s = "critical" then 4
  else if s = "unknown" then 5
  else 0

/-- The severity string a tile contributes: `result.get("severity", "unknown")`. -/
def tileSeverity (r : TileResult) : String :=
  r.severity.getD "unknown"

/-- One step of the `max_severity` accumulation in `combine_tile_results`:
update the running maximum iff this tile's rank is strictly higher (ties keep
the first-seen maximum). -/
def severityStep (acc : String) (r : TileResult) : String :=
  if severityLevel (tileSeverity r) > severityLevel acc then tileSeverity r else acc

/-- The `max_severity` accumulator over the whole pass, started at `"none"`. -/
def maxSeverity (l : List TileResult) : String :=
  l.foldl severityStep "none"

/-- `has_any_changes`: logical OR of `result.get("has_changes", False)`. -/
def hasAnyChanges (l : List TileResult) : Bool :=
  l.any (fun r => r.has_changes.getD false)

/-- `error_count`: how many results carry an `"error"` key. -/
def errorCount (l : List TileResult) : Nat :=
  l.countP (fun r => r.error.isSome)

/-- `tile_info.get("tile_index", i)` with `i` the enumeration position:
the tile index used for the location prefix. -/
def effectiveIndex (r : TileResult) (i : Nat) : Nat :=
  match r.tile_info with
  | some ti => ti.tile_index.getD i
  | Option.none => i

/-- Rewrite one change's `location` to `"Tile " ++ (index+1) ++ ": " ++ original`,
with the original defaulting to `""` (`change_copy.get("location", "")`). -/
def rewriteChange (idx : Nat) (c : Change) : Change :=
  { c with location := some ("Tile " ++ toString (idx + 1) ++ ": " ++ c.location.getD "") }

/-- `all_changes`: concatenation, in pass order, of every tile's
`changes_detected` (default `[]`), each change rewritten with its tile's
effective index.  `i` is the enumeration position of the current tile. -/
def collectChanges : Nat → List TileResult → List Change
  | _, [] => []
  | i, r :: rest =>
      (r.changes_detected.getD []).map (rewriteChange (effectiveIndex r i))
        ++ collectChanges (i + 1) rest

/-- `all_recommendations`: concatenation of `result.get("recommendations", [])`. -/
def allRecommendations (l : List TileResult) : List String :=
  (l.map (fun r => r.recommendations.getD [])).flatten

/-- `availability_statuses`: the availability values seen, in pass order,
keeping only present, truthy (non-empty) strings. -/
def availabilityStatuses (l : List TileResult) : List String :=
  l.filterMap (fun r =>
    match r.availability_status with
    | some a => if a = "" then Option.none else some a
    | Option.none => Option.none)

/-- The overall-availability precedence chain at the end of
`combine_tile_results`, exactly as the source's if/elif ladder. -/
def overallAvailability (statuses : List String) : String :=
  if statuses.isEmpty then "unknown"
  else if statuses.contains "unavailable" then "unavailable"
  else if statuses.contains "partially_available" then "partially_available"
  else if statuses.contains "error" then "error"
  else "available"

/-- The summary string assembled by `combine_tile_results`. -/
def combinedSummary (tile_count change_count error_count : Nat)
    (has_any : Bool) : String :=
  let error_summary :=
    if error_count > 0 then
      " (" ++ toString error_count ++ " tiles had analysis errors)"
    else ""
  if has_any then
    "Analysis of " ++ toString tile_count ++ " tiles found "
      ++ toString change_count ++ " changes" ++ error_summary
  else
    "Analysis of " ++ toString tile_count ++ " tiles found no changes"
      ++ error_summary

/-- `combine_tile_results`.  The source accumulates all aggregates in one pass
whose per-iteration updates are mutually independent, so each accumulator is
embedded as its own traversal; the empty-input sentinel dict is returned
verbatim (note it carries no `tiles_with_errors` key). -/
def combine_tile_results (tile_results : List TileResult) : CombinedResult :=
  if tile_results.isEmpty then
    { has_changes := false
      severity := "none"
      summary := "No tiles to analyze"
      changes_detected := []
      availability_status := "unknown"
      recommendations := []
      tile_count := 0
      tiles_with_errors := Option.none }
  else
    let has_any_changes := hasAnyChanges tile_results
    let max_severity := maxSeverity tile_results
    let all_changes := collectChanges 0 tile_results
    let error_count := errorCount tile_results
    let overall_availability := overallAvailability (availabilityStatuses tile_results)
    let tile_count := tile_results.length
    { has_changes := has_any_changes
      severity := max_severity
      summary := combinedSummary tile_count all_changes.length error_count has_any_changes
      changes_detected := all_changes
      availability_status := overall_availability
      recommendations := (allRecommendations tile_results).eraseDups
      tile_count := tile_count
      tiles_with_errors := some error_count }

/-- The tile-cutting while-loop of `tile_image`, returning each tile's
half-open row range `(tile_start_y, tile_end_y)`.  Structural recursion on a
fuel argument keeps the definition kernel-reducible; whenever
`0 < tile_height` and `height - y ≤ fuel` the fuel never runs out, so the
result matches the Python `while` loop — that loop never terminates at all
when `tile_height = 0`, and every call site in the source uses a positive
tile height. -/
def tileLoop (height tile_height overlap : Nat) : Nat → Nat → List (Nat × Nat)
  | _, 0 => []
  | y, fuel + 1 =>
    if y < height then
      let tile_end0 := min (y + tile_height) height
      let tile_end :=
        if tile_end0 < height then min (tile_end0 + overlap) height else tile_end0
      (y, tile_end) :: tileLoop height tile_height overlap (y + tile_height) fuel
    else []

/-- `tile_image`, abstracted to the row ranges of the produced tiles: an image
of height at most `tile_height` is returned whole (the source returns the
original path, i.e. the single range covering the full image); otherwise the
overlapping-tile loop runs from row 0, with fuel `height` (always sufficient
for a positive tile height). -/
def tile_image (height tile_height overlap : Nat) : List (Nat × Nat) :=
  if height ≤ tile_height then [(0, height)]
  else tileLoop height tile_height overlap 0 height

example :
    tile_image 9168 3000 200 = [(0, 3200), (3000, 6200), (6000, 9168), (9000, 9168)] := by
  decide

/-- The synthetic error result dict that `analyze_tiled_image` appends when
the adapter call for tile index `i` raises with message `e`. -/
def errorResult (i : Nat) (b c e : String) : TileResult :=
  { error := some e
    has_changes := some true
    severity := some "unknown"
    summary := some ("Analysis failed for tile " ++ toString i)
    tile_info := some { tile_index := some i, baseline_path := some b, current_path := some c } }

/-- The per-pair loop of `analyze_tiled_image` over the zipped tile lists.
The external `compare_with_claude` call is modelled as
`adapter : String → String → Except String TileResult` (`Except.error`
standing for a raised exception).  Besides the result list the loop returns
the number of adapter invocations made: each iteration performs exactly one.
On success the source stores the tile metadata into the result's
`tile_info` key before appending it. -/
def analyzePairs (adapter : String → String → Except String TileResult) :
    Nat → List (String × String) → List TileResult × Nat
  | _, [] => ([], 0)
  | i, (b, c) :: rest =>
    let entry :=
      match adapter b c with
      | Except.ok r =>
          { r with
            tile_info := some { tile_index := some i, baseline_path := some b,
                                current_path := some c } }
      | Except.error e => errorResult i b c e
    let tail := analyzePairs adapter (i + 1) rest
    (entry :: tail.1, tail.2 + 1)

/-- `analyze_tiled_image`: reject mismatched tile counts up front (with zero
adapter calls), otherwise analyze each pair in order and combine.  The first
component is the outcome (`Except.error` models the raised
`ImageTilingError`), the second the number of adapter calls performed. -/
def analyze_tiled_image (adapter : String → String → Except String TileResult)
    (baseline_tiles current_tiles : List String) :
    Except String CombinedResult × Nat :=
  if baseline_tiles.length ≠ current_tiles.length then
    (Except.error ("Tile count mismatch: " ++ toString baseline_tiles.length
        ++ " baseline vs " ++ toString current_tiles.length ++ " current"), 0)
  else
    let pairRun := analyzePairs adapter 0 (baseline_tiles.zip current_tiles)
    (Except.ok (combine_tile_results pairRun.1), pairRun.2)

/-- The filesystem state `cleanup_tiles` acts on: which artifact paths
currently exist, and a deterministic oracle saying which paths make
`Path.unlink` raise. -/
structure FS where
  alive : String → Bool
  unlinkFails : String → Bool

/-- Removing one path from the filesystem (a successful `unlink`). -/
def fsDelete (fs : FS) (p : String) : FS :=
  { fs with alive := fun q => if q = p then false else fs.alive q }

/-- The overall-availability precedence as the spec words it (first match
wins over the statuses seen), stated with membership for comparison with the
source's if/elif ladder over `in`. -/
def specOverallAvailability (statuses : List String) : String :=
  if statuses = [] then "unknown"
  else if "unavailable" ∈ statuses then "unavailable"
  else if "partially_available" ∈ statuses then "partially_available"
  else if "error" ∈ statuses then "error"
  else "available"

/-- A tile result dict carrying only an availability status. -/
def availResult (a : String) : TileResult :=
  { availability_status := some a }

/-- The six severity strings the `severity_levels` dict recognizes. -/
def recognizedSeverities : List String :=
  ["none", "minor", "moderate", "major", "critical", "unknown"]

/-- Inverse of `severityLevel` on ranks 0..5, used to reason about the
string-valued maximum-severity accumulator. -/
def severityName (n : Nat) : String :=
  if n = 0 then "none"
  else if n = 1 then "minor"
  else if n = 2 then "moderate"
  else if n = 3 then "major"
  else if n = 4 then "critical"
  else "unknown"

/-- Adapter for concrete instances: raises on baseline path "b1", succeeds
with an empty result dict otherwise. -/
def failOnB1 : String → String → Except String TileResult :=
  fun b _ => if b = "b1" then Except.error "boom" else Except.ok {}

/-- Adapter for concrete instances: always succeeds with an empty result dict. -/
def okAdapter : String → String → Except String TileResult :=
  fun _ _ => Except.ok {}

/-- `cleanup_tiles`: walk the path list; an existing file is unlinked
(counted in `cleaned_count`) unless unlinking raises, in which case the
exception is swallowed and tallied in `error_count`; a missing file is
skipped.  The source logs the two tallies (its Python return type is
`None`); the embedding returns them as `(cleaned_count, error_count)`
together with the resulting filesystem.  Total by construction: every
per-artifact failure is caught inside the loop, so no input makes the
function raise. -/
def cleanup_tiles (tile_paths : List String) (fs : FS) : (Nat × Nat) × FS :=
  match tile_paths with
  | [] => ((0, 0), fs)
  | p :: rest =>
    if fs.alive p then
      if fs.unlinkFails p then
        let tail := cleanup_tiles rest fs
        ((tail.1.1, tail.1.2 + 1), tail.2)
      else
        let tail := cleanup_tiles rest (fsDelete fs p)
        ((tail.1.1 + 1, tail.1.2), tail.2)
    else cleanup_tiles rest fs

/-! ## Helper lemmas -/

lemma combine_ne_nil (l : List TileResult) (h : l ≠ []) :
    combine_tile_results l =
      { has_changes := hasAnyChanges l
        severity := maxSeverity l
        summary := combinedSummary l.length (collectChanges 0 l).length (errorCount l)
                     (hasAnyChanges l)
        changes_detected := collectChanges 0 l
        availability_status := overallAvailability (availabilityStatuses l)
        recommendations := (allRecommendations l).eraseDups
        tile_count := l.length
        tiles_with_errors := some (errorCount l) } := by
  unfold combine_tile_results
  simp [List.isEmpty_iff, h]

lemma contains_eq_mem (l : List String) (a : String) :
    l.contains a = decide (a ∈ l) := by
  induction l with
  | nil => rfl
  | cons x t ih =>
      by_cases hx : a = x <;> simp [hx, List.contains_cons, ih]

/-! ## C9 -/

/-- C9 counterexample: the empty-input sentinel's summary is not the string
"no tiles to analyze" (the source capitalizes it). -/
theorem empty_combine_summary_not_lowercase :
    ¬ ((combine_tile_results []).summary = "no tiles to analyze") := by
  decide

/-- C9 (amended): `combine_tile_results` on the empty list returns the
sentinel: no changes, severity "none", availability "unknown", tile count 0,
empty change and recommendation lists, and summary "No tiles to analyze"
(capital N); the sentinel dict carries no tiles_with_errors key. -/
theorem empty_combine_sentinel :
    combine_tile_results [] =
      { has_changes := false
        severity := "none"
        summary := "No tiles to analyze"
        changes_detected := []
        availability_status := "unknown"
        recommendations := []
        tile_count := 0
        tiles_with_errors := Option.none } := by
  rfl

/-! ## C4 -/

/-- C4: on baseline/current tile lists of unequal length,
`analyze_tiled_image` fails with the tile-count-mismatch error and performs
zero adapter calls (no partial per-tile results are produced). -/
theorem mismatched_tile_counts_rejected_before_any_call
    (adapter : String → String → Except String TileResult)
    (baseline_tiles current_tiles : List String)
    (h : baseline_tiles.length ≠ current_tiles.length) :
    analyze_tiled_image adapter baseline_tiles current_tiles =
      (Except.error ("Tile count mismatch: " ++ toString baseline_tiles.length
          ++ " baseline vs " ++ toString current_tiles.length ++ " current"), 0) := by
  unfold analyze_tiled_image
  simp [h]

/-- C4 witness: 3 baseline tiles vs 2 current tiles. -/
theorem mismatched_tile_counts_rejected_before_any_call_witness :
    (["b0", "b1", "b2"] : List String).length ≠ (["c0", "c1"] : List String).length ∧
    analyze_tiled_image okAdapter ["b0", "b1", "b2"] ["c0", "c1"] =
      (Except.error "Tile count mismatch: 3 baseline vs 2 current", 0) :=
  ⟨by decide,
   mismatched_tile_counts_rejected_before_any_call okAdapter _ _ (by decide)⟩

/-! ## C6 -/

lemma overallAvailability_eq_spec (statuses : List String) :
    overallAvailability statuses = specOverallAvailability statuses := by
  unfold overallAvailability specOverallAvailability
  simp [List.isEmpty_iff, contains_eq_mem]

/-- C6: the combined availability follows the fixed precedence ladder over
the non-empty per-tile availability values (none seen: unknown; any
unavailable: unavailable; else any partially_available: partially_available;
else any error: error; else available), and the claim's concrete examples:
a result with no status combines to "unknown",
[available, unavailable, partially_available] combines to "unavailable", and
[available, available, partially_available] to "partially_available". -/
theorem availability_precedence :
    (∀ l : List TileResult,
      (combine_tile_results l).availability_status
        = specOverallAvailability (availabilityStatuses l)) ∧
    (combine_tile_results
        [availResult "available", availResult "unavailable",
         availResult "partially_available"]).availability_status = "unavailable" ∧
    (combine_tile_results
        [availResult "available", availResult "available",
         availResult "partially_available"]).availability_status
      = "partially_available" ∧
    (combine_tile_results [{}]).availability_status = "unknown" := by
  refine ⟨fun l => ?_, by decide, by decide, by decide⟩
  rcases eq_or_ne l [] with rfl | h
  · rfl
  · rw [combine_ne_nil l h]
    exact overallAvailability_eq_spec _

/-! ## C10 -/

lemma severityStep_of_level_zero (acc : String) (r : TileResult)
    (h : severityLevel (tileSeverity r) = 0) : severityStep acc r = acc := by
  unfold severityStep
  simp [h]

lemma maxSeverity_append_cons (l1 l2 : List TileResult) (r : TileResult) :
    maxSeverity (l1 ++ r :: l2)
      = List.foldl severityStep (severityStep (List.foldl severityStep "none" l1) r) l2 := by
  unfold maxSeverity
  rw [List.foldl_append]
  rfl

/-- C10: a present severity string outside the six recognized values is
ranked 0 by `severity_levels.get(s, 0)` — interchangeable with "none", hence
it can never raise the combined severity — while an absent severity key
defaults to "unknown" (rank 5): the two substitutions below change nothing in
the combined severity, whatever the surrounding results. -/
theorem unrecognized_severity_ranks_as_none
    (l1 l2 : List TileResult) (r : TileResult) (s : String)
    (hs : s ∉ recognizedSeverities) :
    (combine_tile_results (l1 ++ { r with severity := some s } :: l2)).severity
      = (combine_tile_results (l1 ++ { r with severity := some "none" } :: l2)).severity ∧
    (combine_tile_results (l1 ++ { r with severity := Option.none } :: l2)).severity
      = (combine_tile_results (l1 ++ { r with severity := some "unknown" } :: l2)).severity := by
  have hne : ∀ (x : TileResult), l1 ++ x :: l2 ≠ [] := by
    intro x hx
    exact absurd (List.append_eq_nil.mp hx).2 (List.cons_ne_nil _ _)
  constructor
  · rw [combine_ne_nil _ (hne _), combine_ne_nil _ (hne _)]
    simp only [maxSeverity_append_cons]
    have h0 : severityLevel (tileSeverity { r with severity := some s }) = 0 := by
      simp only [recognizedSeverities, List.mem_cons, List.mem_singleton] at hs
      push_neg at hs
      unfold tileSeverity severityLevel
      simp [hs.1, hs.2.1, hs.2.2.1, hs.2.2.2.1, hs.2.2.2.2.1, hs.2.2.2.2.2]
    have h0' : severityLevel (tileSeverity { r with severity := some "none" }) = 0 := by
      rfl
    rw [severityStep_of_level_zero _ _ h0, severityStep_of_level_zero _ _ h0']
  · rw [combine_ne_nil _ (hne _), combine_ne_nil _ (hne _)]
    simp only [maxSeverity_append_cons]
    have heq : tileSeverity { r with severity := Option.none }
        = tileSeverity { r with severity := some "unknown" } := rfl
    unfold severityStep
    rw [heq]

/-- C10 witness: the unrecognized severity string "catastrophic" with an
otherwise empty surrounding batch. -/
theorem unrecognized_severity_ranks_as_none_witness :
    ("catastrophic" ∉ recognizedSeverities) ∧
    ((combine_tile_results [{ severity := some "catastrophic" }]).severity
        = (combine_tile_results [({ severity := some "none" } : TileResult)]).severity ∧
     (combine_tile_results [({ severity := Option.none } : TileResult)]).severity
        = (combine_tile_results [({ severity := some "unknown" } : TileResult)]).severity) :=
  ⟨by decide, unrecognized_severity_ranks_as_none [] [] {} "catastrophic" (by decide)⟩

/-! ## C7 -/

lemma collectChanges_eq_flatten (l : List TileResult) :
    ∀ i, collectChanges i l
      = ((List.enumFrom i l).map (fun p =>
          (p.2.changes_detected.getD []).map (rewriteChange (effectiveIndex p.2 p.1)))).flatten := by
  induction l with
  | nil => intro i; rfl
  | cons r t ih =>
      intro i
      simp only [collectChanges, List.enumFrom, List.map_cons, List.flatten_cons, ih (i + 1)]

lemma collectChanges_length (l : List TileResult) :
    ∀ i, (collectChanges i l).length
      = (l.map (fun r => (r.changes_detected.getD []).length)).sum := by
  induction l with
  | nil => intro i; rfl
  | cons r t ih =>
      intro i
      simp [collectChanges, ih (i + 1)]

/-- C7: the combined change list is exactly the concatenation, in tile order,
of every tile's changes, each with its location rewritten to
"Tile (idx+1): original-location" where idx is the originating tile index
(the `tile_info.tile_index` the producing stage attached, defaulting to the
result's position); consequently its length is the sum of the per-tile change
list lengths — nothing dropped or duplicated. -/
theorem change_conservation_and_location_prefix (l : List TileResult) :
    (combine_tile_results l).changes_detected
        = (l.enum.map (fun p =>
            (p.2.changes_detected.getD []).map (rewriteChange (effectiveIndex p.2 p.1)))).flatten ∧
    (combine_tile_results l).changes_detected.length
        = (l.map (fun r => (r.changes_detected.getD []).length)).sum := by
  rcases eq_or_ne l [] with rfl | h
  · exact ⟨rfl, rfl⟩
  · rw [combine_ne_nil l h]
    exact ⟨collectChanges_eq_flatten l 0, collectChanges_length l 0⟩

/-! ## C1 -/

lemma severityName_level_of_mem (s : String) (hs : s ∈ recognizedSeverities) :
    severityName (severityLevel s) = s := by
  simp only [recognizedSeverities, List.mem_cons, List.mem_singleton,
    List.not_mem_nil, or_false] at hs
  rcases hs with rfl | rfl | rfl | rfl | rfl | rfl <;> rfl

lemma severityLevel_le_five (s : String) : severityLevel s ≤ 5 := by
  unfold severityLevel
  split_ifs <;> omega

lemma severityLevel_severityName (n : Nat) (hn : n ≤ 5) :
    severityLevel (severityName n) = n := by
  interval_cases n <;> rfl

/-- The numeric shadow of `severityStep`: fold the maximum severity rank. -/
def sevRankStep (m : Nat) (r : TileResult) : Nat :=
  max m (severityLevel (tileSeverity r))

lemma foldl_severityStep_eq_name (l : List TileResult) :
    ∀ acc, acc ∈ recognizedSeverities →
      (∀ r ∈ l, tileSeverity r ∈ recognizedSeverities) →
      List.foldl severityStep acc l
        = severityName (List.foldl sevRankStep (severityLevel acc) l) := by
  induction l with
  | nil =>
      intro acc hacc _
      exact (severityName_level_of_mem acc hacc).symm
  | cons r t ih =>
      intro acc hacc hall
      have hr : tileSeverity r ∈ recognizedSeverities := hall r (List.mem_cons_self r t)
      have htail : ∀ x ∈ t, tileSeverity x ∈ recognizedSeverities :=
        fun x hx => hall x (List.mem_cons_of_mem r hx)
      simp only [List.foldl_cons]
      by_cases hgt : severityLevel (tileSeverity r) > severityLevel acc
      · rw [show severityStep acc r = tileSeverity r from if_pos hgt]
        rw [ih (tileSeverity r) hr htail]
        congr 1
        have : sevRankStep (severityLevel acc) r = severityLevel (tileSeverity r) := by
          unfold sevRankStep; omega
        rw [this]
      · rw [show severityStep acc r = acc from if_neg hgt]
        rw [ih acc hacc htail]
        congr 1
        have : sevRankStep (severityLevel acc) r = severityLevel acc := by
          unfold sevRankStep; omega
        rw [this]

lemma foldl_sevRankStep_perm {l l' : List TileResult} (h : l.Perm l') :
    ∀ a, List.foldl sevRankStep a l = List.foldl sevRankStep a l' := by
  induction h with
  | nil => intro a; rfl
  | cons x _ ih => intro a; simp only [List.foldl_cons]; exact ih _
  | swap x y t =>
      intro a
      simp only [List.foldl_cons]
      have : sevRankStep (sevRankStep a y) x = sevRankStep (sevRankStep a x) y := by
        unfold sevRankStep; omega
      rw [this]
  | trans _ _ ih1 ih2 => intro a; exact (ih1 a).trans (ih2 a)

lemma le_foldl_sevRankStep (l : List TileResult) :
    ∀ a, a ≤ List.foldl sevRankStep a l := by
  induction l with
  | nil => intro a; exact le_refl a
  | cons r t ih =>
      intro a
      simp only [List.foldl_cons]
      exact le_trans (le_max_left _ _) (ih _)

lemma mem_le_foldl_sevRankStep (l : List TileResult) :
    ∀ a, ∀ r ∈ l, severityLevel (tileSeverity r) ≤ List.foldl sevRankStep a l := by
  induction l with
  | nil => intro a r hr; cases hr
  | cons x t ih =>
      intro a r hr
      simp only [List.foldl_cons]
      rcases List.mem_cons.mp hr with rfl | hr2
      · exact le_trans (le_max_right _ _) (le_foldl_sevRankStep t _)
      · exact ih _ r hr2

lemma foldl_sevRankStep_le_five (l : List TileResult) :
    ∀ a, a ≤ 5 → List.foldl sevRankStep a l ≤ 5 := by
  induction l with
  | nil => intro a ha; exact ha
  | cons r t ih =>
      intro a ha
      simp only [List.foldl_cons]
      refine ih _ ?_
      have := severityLevel_le_five (tileSeverity r)
      unfold sevRankStep
      omega

/-- C1: over results whose severities (absent ones defaulting to "unknown")
all lie in the six recognized values, combining any permutation of the same
multiset yields the same combined severity string, and the combined severity
is never ranked below any input severity under
none(0) < minor(1) < moderate(2) < major(3) < critical(4) < unknown(5).
Ties keep the first-seen maximum: with recognized severities, equal rank
means the identical string, so this is subsumed by the equality. -/
theorem combined_severity_perm_invariant_and_monotone
    (l l' : List TileResult) (hperm : l.Perm l')
    (hs : ∀ r ∈ l, tileSeverity r ∈ recognizedSeverities) :
    (combine_tile_results l).severity = (combine_tile_results l').severity ∧
    ∀ r ∈ l, severityLevel (tileSeverity r)
        ≤ severityLevel ((combine_tile_results l).severity) := by
  rcases eq_or_ne l [] with rfl | h
  · rw [hperm.symm.eq_nil]
    exact ⟨rfl, fun r hr => absurd hr (List.not_mem_nil r)⟩
  · have h' : l' ≠ [] := by
      intro hl'
      exact h (List.length_eq_zero.mp (by rw [hperm.length_eq, hl']; rfl))
    have hs' : ∀ r ∈ l', tileSeverity r ∈ recognizedSeverities :=
      fun r hr => hs r (hperm.mem_iff.mpr hr)
    have hmem : ("none" : String) ∈ recognizedSeverities := by decide
    have hname : maxSeverity l = severityName (List.foldl sevRankStep 0 l) :=
      foldl_severityStep_eq_name l "none" hmem hs
    have hname' : maxSeverity l' = severityName (List.foldl sevRankStep 0 l') :=
      foldl_severityStep_eq_name l' "none" hmem hs'
    rw [combine_ne_nil l h, combine_ne_nil l' h']
    constructor
    · show maxSeverity l = maxSeverity l'
      rw [hname, hname', foldl_sevRankStep_perm hperm 0]
    · intro r hr
      show severityLevel (tileSeverity r) ≤ severityLevel (maxSeverity l)
      rw [hname,
        severityLevel_severityName _ (foldl_sevRankStep_le_five l 0 (by omega))]
      exact mem_le_foldl_sevRankStep l 0 r hr

/-- C1 witness: a two-element batch and its reversal, severities "minor" and
"critical". -/
theorem combined_severity_perm_invariant_and_monotone_witness :
    (([{ severity := some "minor" }, { severity := some "critical" }] : List TileResult).Perm
        [{ severity := some "critical" }, { severity := some "minor" }]) ∧
    (∀ r ∈ ([{ severity := some "minor" }, { severity := some "critical" }] : List TileResult),
        tileSeverity r ∈ recognizedSeverities) ∧
    ((combine_tile_results [{ severity := some "minor" }, { severity := some "critical" }]).severity
        = (combine_tile_results
            [{ severity := some "critical" }, { severity := some "minor" }]).severity ∧
      ∀ r ∈ ([{ severity := some "minor" }, { severity := some "critical" }] : List TileResult),
        severityLevel (tileSeverity r)
          ≤ severityLevel ((combine_tile_results
              [{ severity := some "minor" }, { severity := some "critical" }]).severity)) :=
  ⟨by decide, by decide,
   combined_severity_perm_invariant_and_monotone _ _ (by decide) (by decide)⟩

/-! ## C5 -/

lemma tileLoop_eq_nil_of_le (height tile_height overlap : Nat) (fuel y : Nat)
    (h : height ≤ y) : tileLoop height tile_height overlap y fuel = [] := by
  cases fuel with
  | zero => rfl
  | succ fuel => simp [tileLoop, Nat.not_lt.mpr h]

lemma tileLoop_length (height tile_height overlap : Nat) (ht : 0 < tile_height) :
    ∀ fuel y, y < height → height - y ≤ fuel →
      (tileLoop height tile_height overlap y fuel).length
        = (height - y + tile_height - 1) / tile_height := by
  intro fuel
  induction fuel with
  | zero => intro y hy hf; omega
  | succ fuel ih =>
      intro y hy hf
      simp only [tileLoop, if_pos hy, List.length_cons]
      by_cases hend : y + tile_height < height
      · rw [ih (y + tile_height) hend (by omega)]
        have hsplit : height - y + tile_height - 1
            = (height - (y + tile_height) + tile_height - 1) + tile_height := by
          omega
        rw [hsplit, Nat.add_div_right _ ht]
      · rw [tileLoop_eq_nil_of_le height tile_height overlap fuel (y + tile_height)
            (by omega)]
        simp only [List.length_nil]
        symm
        exact Nat.div_eq_of_lt_le (by omega) (by omega)

/-- C5: splitting an image of height H (H at least 1) with positive tile
height T produces exactly ceil(H / T) = (H + T - 1) / T tiles, for every
overlap value; and when H fits in one tile (H at most T) the result is the
single tile spanning the full image, i.e. the original image returned
unchanged. -/
theorem tile_count_is_ceil_div (height tile_height overlap : Nat)
    (hh : 1 ≤ height) (ht : 0 < tile_height) :
    (tile_image height tile_height overlap).length
        = (height + tile_height - 1) / tile_height ∧
    (height ≤ tile_height → tile_image height tile_height overlap = [(0, height)]) := by
  constructor
  · unfold tile_image
    by_cases hle : height ≤ tile_height
    · rw [if_pos hle]
      simp only [List.length_singleton]
      symm
      exact Nat.div_eq_of_lt_le (by omega) (by omega)
    · rw [if_neg hle]
      rw [tileLoop_length height tile_height overlap ht height 0 (by omega) (by omega)]
      congr 1
  · intro hle
    unfold tile_image
    rw [if_pos hle]

/-- C5 witness: height 7, tile height 3, overlap 1 gives ceil(7/3) = 3 tiles;
height 3 with tile height 3 passes through as a single full tile. -/
theorem tile_count_is_ceil_div_witness :
    (1 ≤ 7 ∧ 0 < 3 ∧
      ((tile_image 7 3 1).length = (7 + 3 - 1) / 3 ∧
        (7 ≤ 3 → tile_image 7 3 1 = [(0, 7)]))) ∧
    (1 ≤ 3 ∧ 0 < 3 ∧
      ((tile_image 3 3 1).length = (3 + 3 - 1) / 3 ∧
        (3 ≤ 3 → tile_image 3 3 1 = [(0, 3)]))) :=
  ⟨⟨by decide, by decide, tile_count_is_ceil_div 7 3 1 (by decide) (by decide)⟩,
   ⟨by decide, by decide, tile_count_is_ceil_div 3 3 1 (by decide) (by decide)⟩⟩

/-! ## C2 -/

lemma tileLoop_spec (height tile_height overlap : Nat) (ht : 0 < tile_height) :
    ∀ fuel y, y < height → height - y ≤ fuel →
      (∀ row, y ≤ row → row < height →
          ∃ p ∈ tileLoop height tile_height overlap y fuel, p.1 ≤ row ∧ row < p.2) ∧
      (∀ p ∈ (tileLoop height tile_height overlap y fuel).dropLast,
          tile_height ≤ p.2 - p.1 ∧ p.2 - p.1 ≤ tile_height + overlap) ∧
      (∃ s, (tileLoop height tile_height overlap y fuel).getLast? = some (s, height)) := by
  intro fuel
  induction fuel with
  | zero => intro y hy hf; omega
  | succ fuel ih =>
      intro y hy hf
      simp only [tileLoop, if_pos hy]
      by_cases hend : y + tile_height < height
      · obtain ⟨iha, ihb, ihc⟩ := ih (y + tile_height) hend (by omega)
        have hmin : min (y + tile_height) height = y + tile_height := by omega
        rw [hmin, if_pos hend]
        have hLne : tileLoop height tile_height overlap (y + tile_height) fuel ≠ [] := by
          obtain ⟨s, hs⟩ := ihc
          intro h0
          rw [h0] at hs
          cases hs
        have he1 : y + tile_height ≤ min (y + tile_height + overlap) height := by omega
        have he2 : min (y + tile_height + overlap) height ≤ tile_height + overlap + y := by
          omega
        refine ⟨?_, ?_, ?_⟩
        · intro row hrow hrowh
          by_cases hcase : row < y + tile_height
          · exact ⟨(y, min (y + tile_height + overlap) height),
              List.mem_cons_self _ _, hrow, by omega⟩
          · obtain ⟨p, hp, hp1, hp2⟩ := iha row (by omega) hrowh
            exact ⟨p, List.mem_cons_of_mem _ hp, hp1, hp2⟩
        · rw [List.dropLast_cons_of_ne_nil hLne]
          intro p hp
          rcases List.mem_cons.mp hp with rfl | hp2
          · constructor <;> omega
          · exact ihb p hp2
        · obtain ⟨s, hs⟩ := ihc
          rcases hL : tileLoop height tile_height overlap (y + tile_height) fuel with
            _ | ⟨p0, L0⟩
          · exact absurd hL hLne
          · rw [hL] at hs
            rw [List.getLast?_cons_cons]
            exact ⟨s, hs⟩
      · have hmin : min (y + tile_height) height = height := by omega
        rw [hmin, if_neg (lt_irrefl height),
          tileLoop_eq_nil_of_le height tile_height overlap fuel (y + tile_height)
            (by omega)]
        refine ⟨?_, ?_, ?_⟩
        · intro row hrow hrowh
          exact ⟨(y, height), List.mem_singleton.mpr rfl, hrow, hrowh⟩
        · intro p hp
          simp at hp
        · exact ⟨y, rfl⟩

/-- C2: for a positive tile height T strictly below the image height H, the
produced row ranges jointly cover every row of [0, H) with no gap, every
non-final tile's range length lies between T and T + overlap inclusive, and
the final tile ends exactly at row H. -/
theorem tile_ranges_cover_without_gap (height tile_height overlap : Nat)
    (ht : 0 < tile_height) (hlt : tile_height < height) :
    (∀ row, row < height →
        ∃ p ∈ tile_image height tile_height overlap, p.1 ≤ row ∧ row < p.2) ∧
    (∀ p ∈ (tile_image height tile_height overlap).dropLast,
        tile_height ≤ p.2 - p.1 ∧ p.2 - p.1 ≤ tile_height + overlap) ∧
    (∃ s, (tile_image height tile_height overlap).getLast? = some (s, height)) := by
  unfold tile_image
  rw [if_neg (by omega)]
  obtain ⟨a, b, c⟩ :=
    tileLoop_spec height tile_height overlap ht height 0 (by omega) (by omega)
  exact ⟨fun row hrow => a row (Nat.zero_le row) hrow, b, c⟩

/-- C2 witness: the 1920 x 9168 scenario, tile height 3000, overlap 200. -/
theorem tile_ranges_cover_without_gap_witness :
    0 < 3000 ∧ 3000 < 9168 ∧
    ((∀ row, row < 9168 →
        ∃ p ∈ tile_image 9168 3000 200, p.1 ≤ row ∧ row < p.2) ∧
      (∀ p ∈ (tile_image 9168 3000 200).dropLast,
          3000 ≤ p.2 - p.1 ∧ p.2 - p.1 ≤ 3000 + 200) ∧
      (∃ s, (tile_image 9168 3000 200).getLast? = some (s, 9168))) :=
  ⟨by decide, by decide,
   tile_ranges_cover_without_gap 9168 3000 200 (by decide) (by decide)⟩

/-! ## C3 -/

lemma analyzePairs_length (adapter : String → String → Except String TileResult) :
    ∀ (pairs : List (String × String)) (i : Nat),
      (analyzePairs adapter i pairs).1.length = pairs.length := by
  intro pairs
  induction pairs with
  | nil => intro i; rfl
  | cons p t ih =>
      intro i
      obtain ⟨b, c⟩ := p
      simp only [analyzePairs, List.length_cons, ih (i + 1)]

lemma analyzePairs_all_clean (adapter : String → String → Except String TileResult) :
    ∀ (pairs : List (String × String)) (i : Nat),
      (∀ j (hj : j < pairs.length),
          ∃ r, adapter (pairs.get ⟨j, hj⟩).1 (pairs.get ⟨j, hj⟩).2 = Except.ok r
            ∧ r.error = Option.none ∧ r.has_changes.getD false = false) →
      errorCount (analyzePairs adapter i pairs).1 = 0
        ∧ hasAnyChanges (analyzePairs adapter i pairs).1 = false := by
  intro pairs
  induction pairs with
  | nil => intro i _; exact ⟨rfl, rfl⟩
  | cons p t ih =>
      intro i hclean
      obtain ⟨b, c⟩ := p
      obtain ⟨r, hr0, hre, hrc⟩ := hclean 0 (Nat.succ_pos t.length)
      have hr : adapter b c = Except.ok r := hr0
      have htail : ∀ j (hj : j < t.length),
          ∃ s, adapter (t.get ⟨j, hj⟩).1 (t.get ⟨j, hj⟩).2 = Except.ok s
            ∧ s.error = Option.none ∧ s.has_changes.getD false = false :=
        fun j hj => hclean (j + 1) (Nat.succ_lt_succ hj)
      obtain ⟨ih0, ih1⟩ := ih (i + 1) htail
      simp only [errorCount, hasAnyChanges] at ih0 ih1 ⊢
      simp only [analyzePairs]
      rw [hr]
      simp only [List.countP_cons, List.any_cons]
      constructor
      · simp [hre, ih0]
      · simp [hrc, ih1]

lemma analyzePairs_one_error (adapter : String → String → Except String TileResult) :
    ∀ (pairs : List (String × String)) (i k : Nat) (hk : k < pairs.length) (e : String),
      adapter (pairs.get ⟨k, hk⟩).1 (pairs.get ⟨k, hk⟩).2 = Except.error e →
      (∀ j (hj : j < pairs.length), j ≠ k →
          ∃ r, adapter (pairs.get ⟨j, hj⟩).1 (pairs.get ⟨j, hj⟩).2 = Except.ok r
            ∧ r.error = Option.none ∧ r.has_changes.getD false = false) →
      errorCount (analyzePairs adapter i pairs).1 = 1
        ∧ hasAnyChanges (analyzePairs adapter i pairs).1 = true := by
  intro pairs
  induction pairs with
  | nil =>
      intro i k hk e hfail hok
      simp at hk
  | cons p t ih =>
      intro i k hk e hfail hok
      obtain ⟨b, c⟩ := p
      cases k with
      | zero =>
          have hfail2 : adapter b c = Except.error e := hfail
          have hclean : ∀ j (hj : j < t.length),
              ∃ r, adapter (t.get ⟨j, hj⟩).1 (t.get ⟨j, hj⟩).2 = Except.ok r
                ∧ r.error = Option.none ∧ r.has_changes.getD false = false :=
            fun j hj => hok (j + 1) (Nat.succ_lt_succ hj) (Nat.succ_ne_zero j)
          obtain ⟨h0, h1⟩ := analyzePairs_all_clean adapter t (i + 1) hclean
          simp only [errorCount, hasAnyChanges] at h0 h1 ⊢
          simp only [analyzePairs]
          rw [hfail2]
          simp only [List.countP_cons, List.any_cons]
          constructor
          · simp [errorResult, h0]
          · simp [errorResult]
      | succ k2 =>
          have hk2 : k2 < t.length := Nat.lt_of_succ_lt_succ hk
          obtain ⟨r, hr0, hre, hrc⟩ :=
            hok 0 (Nat.succ_pos t.length) (Nat.succ_ne_zero k2).symm
          have hr : adapter b c = Except.ok r := hr0
          have hfail2 : adapter (t.get ⟨k2, hk2⟩).1 (t.get ⟨k2, hk2⟩).2
              = Except.error e := hfail
          have hok2 : ∀ j (hj : j < t.length), j ≠ k2 →
              ∃ s, adapter (t.get ⟨j, hj⟩).1 (t.get ⟨j, hj⟩).2 = Except.ok s
                ∧ s.error = Option.none ∧ s.has_changes.getD false = false :=
            fun j hj hne =>
              hok (j + 1) (Nat.succ_lt_succ hj)
                (fun hcon => hne (Nat.succ_injective hcon))
          obtain ⟨ih0, ih1⟩ := ih (i + 1) k2 hk2 e hfail2 hok2
          simp only [errorCount, hasAnyChanges] at ih0 ih1 ⊢
          simp only [analyzePairs]
          rw [hr]
          simp only [List.countP_cons, List.any_cons]
          constructor
          · simp [hre, ih0]
          · simp [hrc, ih1]

/-- C3: when the adapter call for exactly one tile index k raises while every
other pair succeeds with no error indicator and no changes, the batch is not
aborted: `analyze_tiled_image` still returns a combined result, with
has_changes true, tiles_with_errors 1, and tile_count equal to the total
number of tiles — no tile dropped. -/
theorem tile_error_isolated_in_combine
    (adapter : String → String → Except String TileResult)
    (baseline_tiles current_tiles : List String) (k : Nat) (e : String)
    (hlen : baseline_tiles.length = current_tiles.length)
    (hk : k < (baseline_tiles.zip current_tiles).length)
    (hfail : adapter ((baseline_tiles.zip current_tiles).get ⟨k, hk⟩).1
        ((baseline_tiles.zip current_tiles).get ⟨k, hk⟩).2 = Except.error e)
    (hok : ∀ j (hj : j < (baseline_tiles.zip current_tiles).length), j ≠ k →
        ∃ r, adapter ((baseline_tiles.zip current_tiles).get ⟨j, hj⟩).1
              ((baseline_tiles.zip current_tiles).get ⟨j, hj⟩).2 = Except.ok r
          ∧ r.error = Option.none ∧ r.has_changes.getD false = false) :
    ∃ combined,
      (analyze_tiled_image adapter baseline_tiles current_tiles).1 = Except.ok combined
        ∧ combined.has_changes = true
        ∧ combined.tiles_with_errors = some 1
        ∧ combined.tile_count = baseline_tiles.length := by
  have hres := analyzePairs_one_error adapter (baseline_tiles.zip current_tiles)
    0 k hk e hfail hok
  have hlenres := analyzePairs_length adapter (baseline_tiles.zip current_tiles) 0
  have hne : (analyzePairs adapter 0 (baseline_tiles.zip current_tiles)).1 ≠ [] := by
    intro hcon
    rw [hcon] at hlenres
    simp only [List.length_nil] at hlenres
    omega
  refine ⟨combine_tile_results
      (analyzePairs adapter 0 (baseline_tiles.zip current_tiles)).1, ?_, ?_, ?_, ?_⟩
  · unfold analyze_tiled_image
    rw [if_neg (fun hcon => hcon hlen)]
  · rw [combine_ne_nil _ hne]
    exact hres.2
  · rw [combine_ne_nil _ hne]
    simp only [hres.1]
  · rw [combine_ne_nil _ hne]
    show (analyzePairs adapter 0 (baseline_tiles.zip current_tiles)).1.length
        = baseline_tiles.length
    rw [hlenres, List.length_zip]
    omega

/-- C3 witness: two tile pairs, the adapter raising exactly on the second. -/
theorem tile_error_isolated_in_combine_witness :
    ((["b0", "b1"] : List String).length = (["c0", "c1"] : List String).length) ∧
    (1 < ((["b0", "b1"] : List String).zip ["c0", "c1"]).length) ∧
    (∃ combined,
      (analyze_tiled_image failOnB1 ["b0", "b1"] ["c0", "c1"]).1 = Except.ok combined
        ∧ combined.has_changes = true
        ∧ combined.tiles_with_errors = some 1
        ∧ combined.tile_count = (["b0", "b1"] : List String).length) := by
  refine ⟨rfl, by decide, ?_⟩
  refine tile_error_isolated_in_combine failOnB1 ["b0", "b1"] ["c0", "c1"] 1 "boom"
    rfl (by decide) rfl ?_
  intro j hj hne
  have h2 : ((["b0", "b1"] : List String).zip ["c0", "c1"]).length = 2 := rfl
  rw [h2] at hj
  rcases j with _ | _ | j
  · exact ⟨{}, rfl, rfl, rfl⟩
  · exact absurd rfl hne
  · omega

/-! ## C8 -/

lemma countP_congr_mem {α : Type} (p q : α → Bool) :
    ∀ l : List α, (∀ a ∈ l, p a = q a) → l.countP p = l.countP q := by
  intro l
  induction l with
  | nil => intro _; rfl
  | cons x t ih =>
      intro h
      simp only [List.countP_cons, ih (fun a ha => h a (List.mem_cons_of_mem x ha)),
        h x (List.mem_cons_self x t)]

lemma cleanup_unlinkFails (paths : List String) :
    ∀ fs : FS, (cleanup_tiles paths fs).2.unlinkFails = fs.unlinkFails := by
  induction paths with
  | nil => intro fs; rfl
  | cons p rest ih =>
      intro fs
      simp only [cleanup_tiles]
      by_cases ha : fs.alive p = true
      · rw [if_pos ha]
        by_cases hf : fs.unlinkFails p = true
        · rw [if_pos hf]
          exact ih fs
        · rw [if_neg hf]
          exact ih (fsDelete fs p)
      · rw [if_neg ha]
        exact ih fs

lemma cleanup_alive_mono (paths : List String) :
    ∀ (fs : FS) (q : String),
      (cleanup_tiles paths fs).2.alive q = true → fs.alive q = true := by
  induction paths with
  | nil => intro fs q h; exact h
  | cons p rest ih =>
      intro fs q h
      simp only [cleanup_tiles] at h
      by_cases ha : fs.alive p = true
      · rw [if_pos ha] at h
        by_cases hf : fs.unlinkFails p = true
        · rw [if_pos hf] at h
          exact ih fs q h
        · rw [if_neg hf] at h
          have h2 := ih (fsDelete fs p) q h
          simp only [fsDelete] at h2
          by_cases hqp : q = p
          · rw [if_pos hqp] at h2
            cases h2
          · rw [if_neg hqp] at h2
            exact h2
      · rw [if_neg ha] at h
        exact ih fs q h

lemma cleanup_keeps_failing (paths : List String) :
    ∀ (fs : FS) (q : String), fs.unlinkFails q = true →
      (cleanup_tiles paths fs).2.alive q = fs.alive q := by
  induction paths with
  | nil => intro fs q _; rfl
  | cons p rest ih =>
      intro fs q hq
      simp only [cleanup_tiles]
      by_cases ha : fs.alive p = true
      · rw [if_pos ha]
        by_cases hf : fs.unlinkFails p = true
        · rw [if_pos hf]
          exact ih fs q hq
        · rw [if_neg hf]
          have hne : q ≠ p := by
            intro hcon
            rw [hcon] at hq
            exact hf hq
          have h3 := ih (fsDelete fs p) q hq
          exact h3.trans (if_neg hne)
      · rw [if_neg ha]
        exact ih fs q hq

lemma cleanup_alive_mem (paths : List String) :
    ∀ (fs : FS) (q : String), q ∈ paths →
      (cleanup_tiles paths fs).2.alive q = (fs.alive q && fs.unlinkFails q) := by
  induction paths with
  | nil => intro fs q hq; cases hq
  | cons p rest ih =>
      intro fs q hq
      simp only [cleanup_tiles]
      by_cases ha : fs.alive p = true
      · rw [if_pos ha]
        by_cases hf : fs.unlinkFails p = true
        · rw [if_pos hf]
          show (cleanup_tiles rest fs).2.alive q = (fs.alive q && fs.unlinkFails q)
          rcases List.mem_cons.mp hq with rfl | hq2
          · by_cases hmem : q ∈ rest
            · exact ih fs q hmem
            · rw [cleanup_keeps_failing rest fs q hf, hf, Bool.and_true]
          · exact ih fs q hq2
        · rw [if_neg hf]
          show (cleanup_tiles rest (fsDelete fs p)).2.alive q
              = (fs.alive q && fs.unlinkFails q)
          rw [Bool.not_eq_true] at hf
          rcases List.mem_cons.mp hq with rfl | hq2
          · have hLHS : (cleanup_tiles rest (fsDelete fs q)).2.alive q = false := by
              cases hres : (cleanup_tiles rest (fsDelete fs q)).2.alive q with
              | false => rfl
              | true =>
                  exact absurd (cleanup_alive_mono rest (fsDelete fs q) q hres)
                    (by simp [fsDelete])
            rw [hLHS, hf, Bool.and_false]
          · rw [ih (fsDelete fs p) q hq2]
            simp only [fsDelete]
            by_cases hqp : q = p
            · rw [if_pos hqp, Bool.false_and, hqp, hf, Bool.and_false]
            · rw [if_neg hqp]
      · rw [if_neg ha]
        show (cleanup_tiles rest fs).2.alive q = (fs.alive q && fs.unlinkFails q)
        rw [Bool.not_eq_true] at ha
        rcases List.mem_cons.mp hq with rfl | hq2
        · by_cases hmem : q ∈ rest
          · exact ih fs q hmem
          · have hLHS : (cleanup_tiles rest fs).2.alive q = false := by
              cases hres : (cleanup_tiles rest fs).2.alive q with
              | false => rfl
              | true =>
                  have h5 := cleanup_alive_mono rest fs q hres
                  rw [ha] at h5
                  cases h5
            rw [hLHS, ha, Bool.false_and]
        · exact ih fs q hq2

lemma cleanup_error_count (paths : List String) :
    ∀ fs : FS, (cleanup_tiles paths fs).1.2
      = paths.countP (fun p => fs.alive p && fs.unlinkFails p) := by
  induction paths with
  | nil => intro fs; rfl
  | cons p rest ih =>
      intro fs
      simp only [cleanup_tiles, List.countP_cons]
      by_cases ha : fs.alive p = true
      · rw [if_pos ha]
        by_cases hf : fs.unlinkFails p = true
        · rw [if_pos hf]
          show (cleanup_tiles rest fs).1.2 + 1 = _
          rw [ih fs]
          simp [ha, hf]
        · rw [if_neg hf]
          show (cleanup_tiles rest (fsDelete fs p)).1.2 = _
          rw [Bool.not_eq_true] at hf
          rw [ih (fsDelete fs p)]
          have hpred : rest.countP
                (fun q => (fsDelete fs p).alive q && (fsDelete fs p).unlinkFails q)
              = rest.countP (fun q => fs.alive q && fs.unlinkFails q) := by
            apply countP_congr_mem
            intro a _
            simp only [fsDelete]
            by_cases hap : a = p
            · rw [if_pos hap, Bool.false_and, hap, hf, Bool.and_false]
            · rw [if_neg hap]
          rw [hpred]
          simp [hf]
      · rw [if_neg ha]
        rw [ih fs]
        rw [Bool.not_eq_true] at ha
        simp [ha]

lemma cleanup_stable (paths : List String) :
    ∀ fs : FS, (∀ p ∈ paths, fs.alive p = true → fs.unlinkFails p = true) →
      cleanup_tiles paths fs = ((0, paths.countP (fun p => fs.alive p)), fs) := by
  induction paths with
  | nil => intro fs _; rfl
  | cons p rest ih =>
      intro fs hstab
      simp only [cleanup_tiles, List.countP_cons]
      have htail : ∀ q ∈ rest, fs.alive q = true → fs.unlinkFails q = true :=
        fun q hq => hstab q (List.mem_cons_of_mem p hq)
      by_cases ha : fs.alive p = true
      · have hf : fs.unlinkFails p = true := hstab p (List.mem_cons_self p rest) ha
        rw [if_pos ha, if_pos hf, ih fs htail]
        simp [ha]
      · rw [if_neg ha, ih fs htail]
        rw [Bool.not_eq_true] at ha
        simp [ha]

/-- C8: `cleanup_tiles` returns the (cleaned_count, error_count) tallies it
maintains — every per-artifact unlink failure is swallowed into error_count,
which equals the number of listed artifacts that exist and whose unlink
raises, and the function is total on the modelled filesystem (no input makes
it raise); and it is idempotent: a second call over the same artifact list
reports 0 newly-deleted, the same failure tally, and leaves the filesystem
unchanged. -/
theorem cleanup_tallies_failures_and_idempotent (paths : List String) (fs : FS) :
    (cleanup_tiles paths fs).1.2
        = paths.countP (fun p => fs.alive p && fs.unlinkFails p) ∧
    cleanup_tiles paths (cleanup_tiles paths fs).2
        = ((0, (cleanup_tiles paths fs).1.2), (cleanup_tiles paths fs).2) := by
  refine ⟨cleanup_error_count paths fs, ?_⟩
  have hstab : ∀ p ∈ paths, (cleanup_tiles paths fs).2.alive p = true →
      (cleanup_tiles paths fs).2.unlinkFails p = true := by
    intro p hp halive
    rw [cleanup_alive_mem paths fs p hp] at halive
    rw [cleanup_unlinkFails paths fs]
    simp only [Bool.and_eq_true] at halive
    exact halive.2
  rw [cleanup_stable paths (cleanup_tiles paths fs).2 hstab]
  have hcount : paths.countP (fun p => (cleanup_tiles paths fs).2.alive p)
      = (cleanup_tiles paths fs).1.2 := by
    rw [cleanup_error_count paths fs]
    apply countP_congr_mem
    intro a ha
    exact cleanup_alive_mem paths fs a ha
  rw [hcount]
